import Mathlib

/-!
Verification of the connection-detail aggregation and publication core of
the composite-resource controller (internal/controller/apiextensions/
composite/connection.go), as a shallow embedding in Lean 4.

Go maps are modelled as optional association lists (a nil map is none),
byte slices as opaque strings, and the external collaborators (the
underlying store fetcher/publisher and the object client) as explicit
function parameters whose single observable call is recorded in the
result where a property speaks about it.
-/

set_option autoImplicit false

namespace Crossplane.Conn

/-- Opaque byte-sequence values carried by connection details. Byte slices
are modelled as strings; their contents are never inspected here. -/
abbrev Bytes := String

/-- The entries of a non-nil Go map from string keys to byte values. -/
abbrev Entries := List (String × Bytes)

/-- A Go map value: either nil or a (possibly empty) table. -/
abbrev GoMap := Option Entries

/-- First-match lookup in a map's entry list. -/
def mapLookup : Entries → String → Option Bytes
  | [], _ => none
  | (k', v) :: rest, k => if k' = k then some v else mapLookup rest k

/-- Go map assignment: replace the entry for the key if present, otherwise
append a fresh entry. -/
def mapInsert : Entries → String → Bytes → Entries
  | [], k, v => [(k, v)]
  | (k', v') :: rest, k, v =>
    if k' = k then (k, v) :: rest else (k', v') :: mapInsert rest k v

/-- Ranging over a Go map: a nil map yields no entries. -/
def goEntries : GoMap → Entries
  | none => []
  | some l => l

/-- Go map indexing: a nil map looks up to nothing. -/
def goLookup (m : GoMap) (k : String) : Option Bytes :=
  mapLookup (goEntries m) k

/-- A well-formed Go map value never holds two entries with the same key;
every map produced by actual Go code satisfies this. -/
def wfGoMap (m : GoMap) : Prop :=
  ((goEntries m).map Prod.fst).Nodup

/-- The discriminated type of a connection-detail declaration. -/
inductive ConnectionDetailType where
  | fromConnectionSecretKey
  | fromFieldPath
  | fromValue
  | unknown
  deriving DecidableEq

/-- Errors: opaque messages, wrapping, and the formatted missing-key-ref
error that carries a connection-detail type. -/
inductive GoError where
  | new (msg : String)
  | wrap (msg : String) (err : GoError)
  | fmtConnDetailKey (tp : ConnectionDetailType)
  deriving DecidableEq

/-- Modelled from the spec: the package's error message constants are
declared outside this file; the exact strings are immaterial. -/
def errCompositionNotCompatible : String :=
  "referenced composition is not compatible with this composite resource"

/-- Modelled from the spec: error message constant declared outside this file. -/
def errUpdateComposite : String := "cannot update composite resource"

/-- Modelled from the spec: error message constant declared outside this file. -/
def errFetchSecret : String := "cannot fetch secret"

/-- Modelled from the spec: error message constant declared outside this file. -/
def errPublish : String := "cannot publish connection details"

/-- A reference by name (xpv1.Reference). -/
structure Reference where
  name : String
  deriving DecidableEq

/-- A publish destination: secret name plus store-config reference
(xpv1.PublishConnectionDetailsTo). -/
structure PublishConnectionDetailsTo where
  name : String
  secretStoreConfigRef : Option Reference
  deriving DecidableEq

/-- A resource that may own a published connection secret: its UID, its
apiVersion/kind identity, and its optional publish destination. -/
structure ConnectionSecretOwner where
  uid : String
  apiVersion : String
  kind : String
  publishConnectionDetailsTo : Option PublishConnectionDetailsTo
  deriving DecidableEq

/-- A composed resource. The source's runtime cast of a composed resource
to a connection-secret owner is modelled statically, as §9 of the design
suggests. -/
abbrev Composed := ConnectionSecretOwner

/-- A composite resource: GVK identity, UID and mutable destination. -/
abbrev Composite := ConnectionSecretOwner

/-- A connection-detail declaration of a composed template: discriminated
type, optional source key reference, optional rename. -/
structure ConnectionDetail where
  tp : ConnectionDetailType
  fromConnectionSecretKey : Option String
  name : Option String
  deriving DecidableEq

/-- Modelled from the spec: connectionDetailType (declared elsewhere in
the package, outside src/) resolves a declaration's discriminated type;
per the spec each declaration simply carries that type. -/
def connectionDetailType (d : ConnectionDetail) : ConnectionDetailType :=
  d.tp

/-- A composed template: the ordered connection-detail declarations. -/
structure ComposedTemplate where
  connectionDetails : List ConnectionDetail
  deriving DecidableEq

/-- A ConnectionDetailsFetcher, modelled as the function from a composed
resource and its template to the fetched details and error. -/
abbrev ConnectionDetailsFetcher :=
  Composed → ComposedTemplate → GoMap × Option GoError

/-- A ConnectionDetailsFetcherChain chains multiple fetchers. -/
abbrev ConnectionDetailsFetcherChain := List ConnectionDetailsFetcher

/-- Merging one fetched map into the accumulator: range over conn and
assign each entry into all. -/
def mergeConn (all : Entries) (conn : GoMap) : Entries :=
  (goEntries conn).foldl (fun acc kv => mapInsert acc kv.1 kv.2) all

/-- The loop of ConnectionDetailsFetcherChain.FetchConnectionDetails: on a
fetcher error return the accumulator and the error, otherwise merge the
fetched details and continue. -/
def fetchChainGo (cd : Composed) (t : ComposedTemplate) :
    ConnectionDetailsFetcherChain → Entries → Entries × Option GoError
  | [], all => (all, none)
  | f :: fs, all =>
    match f cd t with
    | (_, some e) => (all, some e)
    | (conn, none) => fetchChainGo cd t fs (mergeConn all conn)

/-- ConnectionDetailsFetcherChain.FetchConnectionDetails: start from the
freshly made (non-nil, empty) map and run the loop. -/
def ConnectionDetailsFetcherChain.FetchConnectionDetails
    (fc : ConnectionDetailsFetcherChain) (cd : Composed) (t : ComposedTemplate) :
    GoMap × Option GoError :=
  let r := fetchChainGo cd t fc []
  (some r.1, r.2)

/-- A ConnectionPublisher, modelled as the function from an owner and the
details to the (published, error) pair it reports. -/
abbrev ConnectionPublisher :=
  ConnectionSecretOwner → GoMap → Bool × Option GoError

/-- A ConnectionPublisherChain chains multiple publishers. -/
abbrev ConnectionPublisherChain := List ConnectionPublisher

/-- The loop of ConnectionPublisherChain.PublishConnection: remember
whether any publisher reported a non-no-op publish; stop on first error. -/
def pubChainGo (o : ConnectionSecretOwner) (c : GoMap) :
    ConnectionPublisherChain → Bool → Bool × Option GoError
  | [], published => (published, none)
  | p :: ps, published =>
    match p o c with
    | (pb, err) =>
      let published := if pb then true else published
      match err with
      | some e => (published, some e)
      | none => pubChainGo o c ps published

/-- ConnectionPublisherChain.PublishConnection. -/
def ConnectionPublisherChain.PublishConnection
    (pc : ConnectionPublisherChain) (o : ConnectionSecretOwner) (c : GoMap) :
    Bool × Option GoError :=
  pubChainGo o c pc false

/-- SecretStoreConnectionPublisher: the underlying store-backed publisher
(an external collaborator, modelled as a function returning its error, if
any) and the configured key filter. -/
structure SecretStoreConnectionPublisher where
  publisher : ConnectionSecretOwner → Entries → Option GoError
  filter : List String

/-- The set m of filter keys: for each key of the filter, m[key] = true. -/
def filterSet (filter : List String) : List String :=
  filter.foldl (fun m key => if m.contains key then m else m ++ [key]) []

/-- The outgoing data payload: each entry of c is copied when the filter
set is empty or has the entry's key. -/
def filterConnectionData (filter : List String) (c : GoMap) : Entries :=
  let m := filterSet filter
  (goEntries c).foldl
    (fun data kv =>
      if m.isEmpty || m.contains kv.1 then mapInsert data kv.1 kv.2 else data)
    []

/-- The observable outcome of a store-backed publish: the returned
(published, err) pair, plus the payload delegated to the underlying
publisher (none when the underlying publisher was never invoked). -/
structure PublishOutcome where
  published : Bool
  err : Option GoError
  delegated : Option Entries
  deriving DecidableEq

/-- SecretStoreConnectionPublisher.PublishConnection: no-op when the owner
has no publish destination; otherwise filter the details and delegate
them to the underlying publisher, wrapping its error. -/
def SecretStoreConnectionPublisher.PublishConnection
    (p : SecretStoreConnectionPublisher) (o : ConnectionSecretOwner) (c : GoMap) :
    PublishOutcome :=
  match o.publishConnectionDetailsTo with
  | none => ⟨false, none, none⟩
  | some _ =>
    let data := filterConnectionData p.filter c
    match p.publisher o data with
    | some e => ⟨false, some (GoError.wrap errPublish e), some data⟩
    | none => ⟨true, none, some data⟩

/-- The raw secret payload read from the store: a Go map whose values are
byte slices that may themselves be nil. -/
abbrev StorePayload := Option (List (String × Option Bytes))

/-- First-match lookup among raw payload entries. -/
def payloadAssoc : List (String × Option Bytes) → String → Option (Option Bytes)
  | [], _ => none
  | (k', v) :: rest, k => if k' = k then some v else payloadAssoc rest k

/-- data[k] on the raw payload: nothing when the map is nil, the key is
absent, or the stored slice is nil. -/
def dataLookup (data : StorePayload) (k : String) : Option Bytes :=
  match data with
  | none => none
  | some l =>
    match payloadAssoc l k with
    | none => none
    | some none => none
    | some (some v) => some v

/-- The declaration loop of
SecretStoreConnectionDetailsFetcher.FetchConnectionDetails; an error value
is the early return of (nil, err). -/
def cdLoop (data : StorePayload) :
    List ConnectionDetail → Entries → Except GoError Entries
  | [], conn => Except.ok conn
  | d :: ds, conn =>
    match connectionDetailType d with
    | ConnectionDetailType.fromConnectionSecretKey =>
      match d.fromConnectionSecretKey with
      | none => Except.error (GoError.fmtConnDetailKey (connectionDetailType d))
      | some sk =>
        match dataLookup data sk with
        | none => cdLoop data ds conn
        | some v =>
          let key := match d.name with
            | some n => n
            | none => sk
          if key = "" then cdLoop data ds conn
          else cdLoop data ds (mapInsert conn key v)
    | _ => cdLoop data ds conn

/-- SecretStoreConnectionDetailsFetcher: the underlying store fetcher is an
external collaborator, modelled as the function from the owner to the raw
payload and error it returns. -/
structure SecretStoreConnectionDetailsFetcher where
  fetcher : ConnectionSecretOwner → StorePayload × Option GoError

/-- SecretStoreConnectionDetailsFetcher.FetchConnectionDetails: read the
raw payload, walk the template's declarations, and return nil rather than
an empty map when nothing was collected. -/
def SecretStoreConnectionDetailsFetcher.FetchConnectionDetails
    (f : SecretStoreConnectionDetailsFetcher) (cd : Composed) (t : ComposedTemplate) :
    GoMap × Option GoError :=
  match f.fetcher cd with
  | (_, some e) => (none, some (GoError.wrap errFetchSecret e))
  | (data, none) =>
    match cdLoop data t.connectionDetails [] with
    | Except.error e => (none, some e)
    | Except.ok conn =>
      if conn.length = 0 then (none, none) else (some conn, none)

/-- The composite type reference of a composition (GVK as
apiVersion/kind). -/
structure TypeReference where
  apiVersion : String
  kind : String
  deriving DecidableEq

/-- The part of a composition spec this core reads. -/
structure CompositionSpec where
  compositeTypeRef : TypeReference
  publishConnectionDetailsWithStoreConfig : Option String
  deriving DecidableEq

/-- A composition. -/
structure Composition where
  spec : CompositionSpec
  deriving DecidableEq

/-- The observable outcome of Configure: the composite resource's
in-memory state after the call, the returned error, and whether the
object client's update operation was invoked. -/
structure ConfigureResult where
  cp : Composite
  err : Option GoError
  updated : Bool
  deriving DecidableEq

/-- errors.Wrap: wrapping a nil error gives a nil error. -/
def wrapErr (msg : String) (e : Option GoError) : Option GoError :=
  match e with
  | none => none
  | some e => some (GoError.wrap msg e)

/-- ConnectionDetailsConfigurator.Configure: reject a composition whose
composite type reference does not match the resource; otherwise set the
publish destination only when it is absent and the composition declares a
default store config, then persist via the object client (an external
collaborator, modelled by the error its update call returns). -/
def ConnectionDetailsConfigurator.Configure
    (cp : Composite) (comp : Composition) (updateErr : Option GoError) :
    ConfigureResult :=
  if comp.spec.compositeTypeRef.apiVersion ≠ cp.apiVersion ∨
      comp.spec.compositeTypeRef.kind ≠ cp.kind then
    ⟨cp, some (GoError.new errCompositionNotCompatible), false⟩
  else
    match cp.publishConnectionDetailsTo, comp.spec.publishConnectionDetailsWithStoreConfig with
    | some _, _ => ⟨cp, none, false⟩
    | none, none => ⟨cp, none, false⟩
    | none, some sc =>
      ⟨⟨cp.uid, cp.apiVersion, cp.kind, some ⟨cp.uid, some ⟨sc⟩⟩⟩,
        wrapErr errUpdateComposite updateErr, true⟩

/-- Spec-level merge of an ordered list of fetched maps, written from the
spec's words for comparison with the chain's code: the value for a key is
taken from the highest-indexed mapping that has it (later fetchers win). -/
def lastWins : List GoMap → String → Option Bytes
  | [], _ => none
  | m :: ms, k =>
    match lastWins ms k with
    | some v => some v
    | none => goLookup m k

/-- Key-wise merge of a list of fetched maps into an accumulator, in
order. -/
def mergeAll (all : Entries) (ms : List GoMap) : Entries :=
  ms.foldl mergeConn all

/-- A concrete composed resource / owner without a publish destination. -/
def exOwner : ConnectionSecretOwner :=
  ⟨"uid-1", "example.org/v1", "XR", none⟩

/-- A concrete owner with a publish destination set. -/
def exOwnerPub : ConnectionSecretOwner :=
  ⟨"uid-1", "example.org/v1", "XR", some ⟨"uid-1", some ⟨"default"⟩⟩⟩

/-- A concrete template with one from-secret-key declaration renaming
"user" to "username". -/
def exTemplate : ComposedTemplate :=
  ⟨[⟨ConnectionDetailType.fromConnectionSecretKey, some "user", some "username"⟩]⟩

/-- A concrete empty template. -/
def exTemplateNil : ComposedTemplate := ⟨[]⟩

theorem mapLookup_mapInsert (m : Entries) (k : String) (v : Bytes) (x : String) :
    mapLookup (mapInsert m k v) x = if k = x then some v else mapLookup m x := by
  induction m with
  | nil =>
    by_cases hx : k = x <;> simp [mapInsert, mapLookup, hx]
  | cons kv rest ih =>
    obtain ⟨k', v'⟩ := kv
    by_cases h : k' = k
    · subst h
      by_cases hx : k' = x <;> simp [mapInsert, mapLookup, hx]
    · have h2 : ¬ k = k' := fun hh => h hh.symm
      by_cases hx : k' = x
      · subst hx
        simp [mapInsert, h, mapLookup, h2]
      · simp [mapInsert, h, mapLookup, hx, ih]

theorem mapLookup_eq_none_of_not_mem (m : Entries) (k : String)
    (h : k ∉ m.map Prod.fst) : mapLookup m k = none := by
  induction m with
  | nil => rfl
  | cons kv rest ih =>
    simp only [List.map_cons, List.mem_cons] at h
    push_neg at h
    have hne : ¬ kv.1 = k := fun hh => h.1 hh.symm
    obtain ⟨k', v'⟩ := kv
    simpa [mapLookup, hne] using ih h.2

theorem mapLookup_foldl_insert (l : Entries) (hnd : (l.map Prod.fst).Nodup) :
    ∀ (all : Entries) (k : String),
      mapLookup (l.foldl (fun acc kv => mapInsert acc kv.1 kv.2) all) k =
        match mapLookup l k with
        | some v => some v
        | none => mapLookup all k := by
  induction l with
  | nil => intro all k; simp [mapLookup]
  | cons kv rest ih =>
    intro all k
    obtain ⟨k0, v0⟩ := kv
    simp only [List.map_cons, List.nodup_cons] at hnd
    rw [List.foldl_cons, ih hnd.2]
    by_cases hx : k0 = k
    · subst hx
      have : mapLookup rest k0 = none := mapLookup_eq_none_of_not_mem _ _ hnd.1
      simp [mapLookup, this, mapLookup_mapInsert]
    · simp [mapLookup, hx, mapLookup_mapInsert]

theorem mapLookup_mergeConn (conn : GoMap) (h : wfGoMap conn)
    (all : Entries) (k : String) :
    mapLookup (mergeConn all conn) k =
      match goLookup conn k with
      | some v => some v
      | none => mapLookup all k :=
  mapLookup_foldl_insert (goEntries conn) h all k

theorem mapLookup_mergeAll (ms : List GoMap) (h : ∀ m ∈ ms, wfGoMap m) :
    ∀ (all : Entries) (k : String),
      mapLookup (mergeAll all ms) k =
        match lastWins ms k with
        | some v => some v
        | none => mapLookup all k := by
  induction ms with
  | nil => intro all k; simp [mergeAll, lastWins]
  | cons m ms ih =>
    intro all k
    have h1 : wfGoMap m := h m (List.mem_cons_self ..)
    have h2 : ∀ x ∈ ms, wfGoMap x := fun x hx => h x (List.mem_cons_of_mem _ hx)
    have hstep : mergeAll all (m :: ms) = mergeAll (mergeConn all m) ms := rfl
    rw [hstep, ih h2, mapLookup_mergeConn m h1]
    cases hw : lastWins ms k with
    | some v => simp [lastWins, hw]
    | none =>
      cases hg : goLookup m k with
      | some v => simp [lastWins, hw, hg]
      | none => simp [lastWins, hw, hg]

theorem fetchChainGo_append (cd : Composed) (t : ComposedTemplate)
    (pre rest : ConnectionDetailsFetcherChain)
    (h : ∀ g ∈ pre, (g cd t).2 = none) :
    ∀ all : Entries,
      fetchChainGo cd t (pre ++ rest) all =
        fetchChainGo cd t rest (mergeAll all (pre.map fun g => (g cd t).1)) := by
  induction pre with
  | nil => intro all; rfl
  | cons g pre ih =>
    intro all
    have hg : (g cd t).2 = none := h g (List.mem_cons_self ..)
    have h2 : ∀ x ∈ pre, (x cd t).2 = none :=
      fun x hx => h x (List.mem_cons_of_mem _ hx)
    rcases hgc : g cd t with ⟨conn, err⟩
    have herr : err = none := by
      have := hg
      rw [hgc] at this
      exact this
    subst herr
    have hstep : fetchChainGo cd t ((g :: pre) ++ rest) all =
        fetchChainGo cd t (pre ++ rest) (mergeConn all conn) := by
      simp [fetchChainGo, hgc]
    rw [hstep, ih h2]
    have hmap : mergeAll all ((g :: pre).map fun x => (x cd t).1) =
        mergeAll (mergeConn all conn) (pre.map fun x => (x cd t).1) := by
      simp [mergeAll, hgc]
    rw [hmap]

theorem pubChainGo_append (o : ConnectionSecretOwner) (c : GoMap)
    (pre rest : ConnectionPublisherChain)
    (h : ∀ q ∈ pre, (q o c).2 = none) :
    ∀ b : Bool,
      pubChainGo o c (pre ++ rest) b =
        pubChainGo o c rest (b || pre.any fun q => (q o c).1) := by
  induction pre with
  | nil => intro b; simp [List.any]
  | cons q pre ih =>
    intro b
    have hq : (q o c).2 = none := h q (List.mem_cons_self ..)
    have h2 : ∀ x ∈ pre, (x o c).2 = none :=
      fun x hx => h x (List.mem_cons_of_mem _ hx)
    rcases hqc : q o c with ⟨pb, err⟩
    have herr : err = none := by
      have := hq
      rw [hqc] at this
      exact this
    subst herr
    have hstep : pubChainGo o c ((q :: pre) ++ rest) b =
        pubChainGo o c (pre ++ rest) (if pb then true else b) := by
      simp [pubChainGo, hqc]
    rw [hstep, ih h2]
    have hb : ((if pb then true else b) || pre.any fun x => (x o c).1) =
        (b || (q :: pre).any fun x => (x o c).1) := by
      simp only [List.any_cons, hqc]
      cases pb <;> cases b <;> simp
    rw [hb]

theorem mergeAll_of_all_none (ms : List GoMap) (h : ∀ m ∈ ms, m = none) :
    ∀ all : Entries, mergeAll all ms = all := by
  induction ms with
  | nil => intro all; rfl
  | cons m ms ih =>
    intro all
    have hm : m = none := h m (List.mem_cons_self ..)
    have h2 : ∀ x ∈ ms, x = none := fun x hx => h x (List.mem_cons_of_mem _ hx)
    have hstep : mergeAll all (m :: ms) = mergeAll (mergeConn all m) ms := rfl
    rw [hstep, hm]
    exact ih h2 (mergeConn all none)

/-- A concrete fetcher producing two keys. -/
def exF1 : ConnectionDetailsFetcher :=
  fun _ _ => (some [("a", "1"), ("b", "2")], none)

/-- A concrete fetcher producing one colliding key. -/
def exF2 : ConnectionDetailsFetcher :=
  fun _ _ => (some [("b", "3")], none)

/-- A concrete fetcher returning a non-empty mapping alongside an error. -/
def exFErr : ConnectionDetailsFetcher :=
  fun _ _ => (some [("a", "v")], some (GoError.new "boom"))

/-- C4: for every ordered fetcher chain producing mappings with no errors,
FetchConnectionDetails returns no error and its result is the key-wise
union of the fetched mappings in which, for any key present in several of
them, the value of the highest-indexed (latest) fetcher wins. -/
theorem claim_C4_chain_merge_last_wins
    (fc : ConnectionDetailsFetcherChain) (cd : Composed) (t : ComposedTemplate)
    (h : ∀ f ∈ fc, (f cd t).2 = none ∧ wfGoMap (f cd t).1) :
    (fc.FetchConnectionDetails cd t).2 = none ∧
    ∀ k, goLookup (fc.FetchConnectionDetails cd t).1 k =
      lastWins (fc.map fun f => (f cd t).1) k := by
  have happ := fetchChainGo_append cd t fc [] (fun g hg => (h g hg).1) []
  rw [List.append_nil] at happ
  have hwf : ∀ m ∈ fc.map (fun f => (f cd t).1), wfGoMap m := by
    intro m hm
    rw [List.mem_map] at hm
    obtain ⟨f, hf, rfl⟩ := hm
    exact (h f hf).2
  constructor
  · show (fetchChainGo cd t fc []).2 = none
    rw [happ]
    rfl
  · intro k
    show mapLookup (fetchChainGo cd t fc []).1 k = _
    rw [happ]
    show mapLookup (mergeAll [] (fc.map fun f => (f cd t).1)) k = _
    rw [mapLookup_mergeAll _ hwf [] k]
    cases lastWins (fc.map fun f => (f cd t).1) k <;> rfl

/-- C4 witness: the chain of two concrete overlapping fetchers ends with
no error and, for the colliding key, the later fetcher's value. -/
theorem claim_C4_witness :
    (ConnectionDetailsFetcherChain.FetchConnectionDetails [exF1, exF2]
      exOwner exTemplateNil).2 = none ∧
    goLookup (ConnectionDetailsFetcherChain.FetchConnectionDetails [exF1, exF2]
      exOwner exTemplateNil).1 "b" =
      lastWins ([exF1, exF2].map fun f => (f exOwner exTemplateNil).1) "b" := by
  have h : ∀ f ∈ ([exF1, exF2] : ConnectionDetailsFetcherChain),
      (f exOwner exTemplateNil).2 = none ∧ wfGoMap (f exOwner exTemplateNil).1 := by
    intro f hf
    simp only [List.mem_cons, List.not_mem_nil, or_false] at hf
    rcases hf with rfl | rfl
    · exact ⟨rfl, by unfold wfGoMap; decide⟩
    · exact ⟨rfl, by unfold wfGoMap; decide⟩
  exact ⟨(claim_C4_chain_merge_last_wins [exF1, exF2] exOwner exTemplateNil h).1,
    (claim_C4_chain_merge_last_wins [exF1, exF2] exOwner exTemplateNil h).2 "b"⟩

/-- C1 counterexample: a single fetcher that returns the mapping a to v
alongside its error. The claim demands a result equal to that mapping
merged into the (empty) prefix merge, hence holding v at key a; the code
discards the mapping returned alongside the error and yields the empty
accumulator instead. -/
theorem claim_C1_counterexample :
    (ConnectionDetailsFetcherChain.FetchConnectionDetails [exFErr]
      exOwner exTemplateNil).2 = some (GoError.new "boom") ∧
    goLookup (ConnectionDetailsFetcherChain.FetchConnectionDetails [exFErr]
      exOwner exTemplateNil).1 "a" = none ∧
    ¬ goLookup (ConnectionDetailsFetcherChain.FetchConnectionDetails [exFErr]
      exOwner exTemplateNil).1 "a" = some "v" := by
  refine ⟨rfl, rfl, ?_⟩
  intro h
  exact Option.noConfusion h

/-- C1 as amended: if some fetcher of the chain returns an error, the
chain returns that error together with exactly the key-wise merge of the
mappings of the error-free fetchers before it; the mapping the failing
fetcher returned alongside its error is discarded. -/
theorem claim_C1_amended_error_merge
    (cd : Composed) (t : ComposedTemplate)
    (pre post : ConnectionDetailsFetcherChain)
    (f : ConnectionDetailsFetcher) (e : GoError)
    (hpre : ∀ g ∈ pre, (g cd t).2 = none ∧ wfGoMap (g cd t).1)
    (hf : (f cd t).2 = some e) :
    (ConnectionDetailsFetcherChain.FetchConnectionDetails (pre ++ f :: post)
      cd t).2 = some e ∧
    ∀ k, goLookup (ConnectionDetailsFetcherChain.FetchConnectionDetails
      (pre ++ f :: post) cd t).1 k =
      lastWins (pre.map fun g => (g cd t).1) k := by
  have happ := fetchChainGo_append cd t pre (f :: post) (fun g hg => (hpre g hg).1) []
  have hwf : ∀ m ∈ pre.map (fun g => (g cd t).1), wfGoMap m := by
    intro m hm
    rw [List.mem_map] at hm
    obtain ⟨g, hg, rfl⟩ := hm
    exact (hpre g hg).2
  rcases hfc : f cd t with ⟨conn, err⟩
  have herr : err = some e := by
    have := hf
    rw [hfc] at this
    exact this
  subst herr
  have hstop : fetchChainGo cd t (f :: post)
      (mergeAll [] (pre.map fun g => (g cd t).1)) =
      (mergeAll [] (pre.map fun g => (g cd t).1), some e) := by
    simp [fetchChainGo, hfc]
  constructor
  · show (fetchChainGo cd t (pre ++ f :: post) []).2 = some e
    rw [happ, hstop]
  · intro k
    show mapLookup (fetchChainGo cd t (pre ++ f :: post) []).1 k = _
    rw [happ, hstop]
    show mapLookup (mergeAll [] (pre.map fun g => (g cd t).1)) k = _
    rw [mapLookup_mergeAll _ hwf [] k]
    cases lastWins (pre.map fun g => (g cd t).1) k <;> rfl

/-- C1 amended witness: a clean fetcher, then a failing one, then another
fetcher; the chain stops at the failure with the prefix merge only. -/
theorem claim_C1_amended_witness :
    (ConnectionDetailsFetcherChain.FetchConnectionDetails [exF1, exFErr, exF2]
      exOwner exTemplateNil).2 = some (GoError.new "boom") ∧
    goLookup (ConnectionDetailsFetcherChain.FetchConnectionDetails
      [exF1, exFErr, exF2] exOwner exTemplateNil).1 "a" =
      lastWins ([exF1].map fun g => (g exOwner exTemplateNil).1) "a" := by
  have hpre : ∀ g ∈ ([exF1] : ConnectionDetailsFetcherChain),
      (g exOwner exTemplateNil).2 = none ∧ wfGoMap (g exOwner exTemplateNil).1 := by
    intro g hg
    simp only [List.mem_singleton] at hg
    subst hg
    exact ⟨rfl, by unfold wfGoMap; decide⟩
  exact ⟨(claim_C1_amended_error_merge exOwner exTemplateNil [exF1] [exF2]
      exFErr (GoError.new "boom") hpre rfl).1,
    (claim_C1_amended_error_merge exOwner exTemplateNil [exF1] [exF2]
      exFErr (GoError.new "boom") hpre rfl).2 "a"⟩

/-- C10: the fetcher chain always hands back a non-nil mapping: it is
non-nil for every chain and input, the empty chain yields the empty (not
nil) mapping, and so does a chain whose fetchers all return nil. -/
theorem claim_C10_chain_non_nil
    (fc : ConnectionDetailsFetcherChain) (cd : Composed) (t : ComposedTemplate) :
    (fc.FetchConnectionDetails cd t).1.isSome = true ∧
    ConnectionDetailsFetcherChain.FetchConnectionDetails [] cd t = (some [], none) ∧
    ((∀ f ∈ fc, f cd t = (none, none)) →
      fc.FetchConnectionDetails cd t = (some [], none)) := by
  refine ⟨rfl, rfl, ?_⟩
  intro h
  have hclean : ∀ f ∈ fc, (f cd t).2 = none := by
    intro f hf
    rw [h f hf]
  have happ := fetchChainGo_append cd t fc [] hclean []
  rw [List.append_nil] at happ
  have hnone : ∀ m ∈ fc.map (fun f => (f cd t).1), m = none := by
    intro m hm
    rw [List.mem_map] at hm
    obtain ⟨f, hf, rfl⟩ := hm
    rw [h f hf]
  have hres : fetchChainGo cd t fc [] = ([], none) := by
    rw [happ, mergeAll_of_all_none _ hnone []]
    rfl
  show (some (fetchChainGo cd t fc []).1, (fetchChainGo cd t fc []).2) = (some [], none)
  rw [hres]

/-- C10 witness: a chain of one fetcher returning the nil mapping yields
the empty non-nil mapping without error. -/
theorem claim_C10_witness :
    (ConnectionDetailsFetcherChain.FetchConnectionDetails
      [fun _ _ => (none, none)] exOwner exTemplateNil).1.isSome = true ∧
    ConnectionDetailsFetcherChain.FetchConnectionDetails
      [fun _ _ => (none, none)] exOwner exTemplateNil = (some [], none) := by
  have h := claim_C10_chain_non_nil [fun _ _ => (none, none)] exOwner exTemplateNil
  refine ⟨h.1, h.2.2 ?_⟩
  intro f hf
  simp only [List.mem_singleton] at hf
  subst hf
  rfl

/-- C6: with no publisher errors the chain reports published precisely
when some chained publisher reported a non-no-op publish; on the first
publisher error it returns that error with the published flag accumulated
up to and including the failing publisher, independently of whatever
publishers follow. -/
theorem claim_C6_publisher_chain
    (pc : ConnectionPublisherChain) (o : ConnectionSecretOwner) (c : GoMap) :
    ((∀ q ∈ pc, (q o c).2 = none) →
      pc.PublishConnection o c = ((pc.any fun q => (q o c).1), none) ∧
      ((pc.PublishConnection o c).1 = true ↔ ∃ q ∈ pc, (q o c).1 = true)) ∧
    (∀ (pre post : ConnectionPublisherChain) (p : ConnectionPublisher) (e : GoError),
      pc = pre ++ p :: post →
      (∀ q ∈ pre, (q o c).2 = none) → (p o c).2 = some e →
      pc.PublishConnection o c = (((pre ++ [p]).any fun q => (q o c).1), some e)) := by
  constructor
  · intro h
    have happ := pubChainGo_append o c pc [] h false
    rw [List.append_nil] at happ
    have hres : pc.PublishConnection o c = ((pc.any fun q => (q o c).1), none) := by
      show pubChainGo o c pc false = _
      rw [happ]
      show ((false || pc.any fun q => (q o c).1), none) = _
      rw [Bool.false_or]
    refine ⟨hres, ?_⟩
    rw [hres]
    exact List.any_eq_true
  · intro pre post p e hpc hpre hp
    subst hpc
    have happ := pubChainGo_append o c pre (p :: post) hpre false
    rcases hpcall : p o c with ⟨pb, err⟩
    have herr : err = some e := by
      have := hp
      rw [hpcall] at this
      exact this
    subst herr
    have hstop : pubChainGo o c (p :: post) (false || pre.any fun q => (q o c).1) =
        ((if pb then true else (false || pre.any fun q => (q o c).1)), some e) := by
      simp [pubChainGo, hpcall]
    show pubChainGo o c (pre ++ p :: post) false = _
    rw [happ, hstop]
    have hb : (if pb then true else (false || pre.any fun q => (q o c).1)) =
        ((pre ++ [p]).any fun q => (q o c).1) := by
      rw [List.any_append]
      simp only [List.any_cons, List.any_nil, hpcall]
      cases pb <;> cases pre.any fun q => (q o c).1 <;> rfl
    rw [hb]

/-- C6 witness: a chain reporting published through its first publisher,
failing at its second, never reaching its third. -/
theorem claim_C6_witness :
    ConnectionPublisherChain.PublishConnection
      [fun _ _ => (true, none), fun _ _ => (false, some (GoError.new "e")),
        fun _ _ => (false, none)] exOwner none = (true, some (GoError.new "e")) := by
  have h := (claim_C6_publisher_chain
    [fun _ _ => (true, none), fun _ _ => (false, some (GoError.new "e")),
      fun _ _ => (false, none)] exOwner none).2
    [fun _ _ => (true, none)] [fun _ _ => (false, none)]
    (fun _ _ => (false, some (GoError.new "e"))) (GoError.new "e")
    rfl (by
      intro q hq
      simp only [List.mem_singleton] at hq
      subst hq
      rfl) rfl
  rw [h]
  rfl

/-- C5: publishing to an owner with no publish destination is a no-op:
published is false, the error nil, and the underlying store publisher is
never invoked. -/
theorem claim_C5_no_destination_noop
    (p : SecretStoreConnectionPublisher) (o : ConnectionSecretOwner) (c : GoMap)
    (h : o.publishConnectionDetailsTo = none) :
    p.PublishConnection o c = ⟨false, none, none⟩ := by
  show SecretStoreConnectionPublisher.PublishConnection p o c = _
  unfold SecretStoreConnectionPublisher.PublishConnection
  rw [h]

/-- C5 witness: a concrete owner without destination, a publisher with an
empty filter, and non-empty details. -/
theorem claim_C5_witness :
    SecretStoreConnectionPublisher.PublishConnection ⟨fun _ _ => none, []⟩
      exOwner (some [("a", "1")]) = ⟨false, none, none⟩ ∧
    exOwner.publishConnectionDetailsTo = none :=
  ⟨claim_C5_no_destination_noop ⟨fun _ _ => none, []⟩ exOwner (some [("a", "1")]) rfl,
    rfl⟩

theorem mem_foldl_filterSet (l : List String) (k : String) :
    ∀ acc : List String,
      (k ∈ l.foldl (fun m key => if m.contains key then m else m ++ [key]) acc) ↔
        (k ∈ acc ∨ k ∈ l) := by
  induction l with
  | nil => intro acc; simp
  | cons key rest ih =>
    intro acc
    rw [List.foldl_cons, ih]
    split
    next h =>
      have hmem : key ∈ acc := List.elem_iff.mp h
      simp only [List.mem_cons]
      constructor
      · intro hh
        rcases hh with hh | hh
        · exact Or.inl hh
        · exact Or.inr (Or.inr hh)
      · intro hh
        rcases hh with hh | hh | hh
        · exact Or.inl hh
        · exact Or.inl (by subst hh; exact hmem)
        · exact Or.inr hh
    next h =>
      simp only [List.mem_append, List.mem_singleton, List.mem_cons]
      tauto

theorem filterSet_contains (filter : List String) (k : String) :
    (filterSet filter).contains k = filter.contains k := by
  cases h1 : (filterSet filter).contains k with
  | true =>
    have hm : k ∈ filterSet filter := List.elem_iff.mp h1
    have hf : k ∈ filter := by
      rcases (mem_foldl_filterSet filter k []).mp hm with hh | hh
      · exact absurd hh (List.not_mem_nil k)
      · exact hh
    exact (List.elem_iff.mpr hf).symm
  | false =>
    cases h2 : filter.contains k with
    | false => rfl
    | true =>
      have hm : k ∈ filter := List.elem_iff.mp h2
      have hs : k ∈ filterSet filter := (mem_foldl_filterSet filter k []).mpr (Or.inr hm)
      have hcon : (filterSet filter).contains k = true := List.elem_iff.mpr hs
      rw [h1] at hcon
      exact absurd hcon (by simp)

theorem filterSet_isEmpty (filter : List String) :
    (filterSet filter).isEmpty = filter.isEmpty := by
  cases filter with
  | nil => rfl
  | cons key rest =>
    have h1 : filterSet (key :: rest) ≠ [] :=
      List.ne_nil_of_mem ((mem_foldl_filterSet (key :: rest) key []).mpr
        (Or.inr (List.mem_cons_self ..)))
    cases hc : (filterSet (key :: rest)).isEmpty with
    | false => rfl
    | true =>
      rw [List.isEmpty_iff] at hc
      exact absurd hc h1

theorem lookup_filter_fold (m : List String) (l : Entries)
    (hnd : (l.map Prod.fst).Nodup) :
    ∀ (acc : Entries) (k : String),
      mapLookup (l.foldl
        (fun data kv =>
          if m.isEmpty || m.contains kv.1 then mapInsert data kv.1 kv.2 else data)
        acc) k =
        match (if m.isEmpty || m.contains k then mapLookup l k else none) with
        | some v => some v
        | none => mapLookup acc k := by
  induction l with
  | nil =>
    intro acc k
    cases m.isEmpty || m.contains k <;> simp [mapLookup]
  | cons kv rest ih =>
    intro acc k
    obtain ⟨k0, v0⟩ := kv
    simp only [List.map_cons, List.nodup_cons] at hnd
    rw [List.foldl_cons, ih hnd.2]
    by_cases hx : k0 = k
    · subst hx
      have hr : mapLookup rest k0 = none := mapLookup_eq_none_of_not_mem _ _ hnd.1
      cases hallow : (m.isEmpty || m.contains k0) with
      | false => simp [mapLookup, hallow, hr]
      | true => simp [mapLookup, hallow, hr, mapLookup_mapInsert]
    · cases hallow0 : (m.isEmpty || m.contains k0) with
      | false =>
        cases hallow : (m.isEmpty || m.contains k) with
        | false => simp [mapLookup, hx, hallow]
        | true => simp [mapLookup, hx, hallow]
      | true =>
        cases hallow : (m.isEmpty || m.contains k) with
        | false => simp [mapLookup, hx, hallow, mapLookup_mapInsert]
        | true => simp [mapLookup, hx, hallow, mapLookup_mapInsert]

theorem mapLookup_filterConnectionData (filter : List String) (c : GoMap)
    (h : wfGoMap c) (k : String) :
    mapLookup (filterConnectionData filter c) k =
      if filter.isEmpty || filter.contains k then goLookup c k else none := by
  show mapLookup ((goEntries c).foldl _ []) k = _
  rw [lookup_filter_fold (filterSet filter) (goEntries c) h [] k]
  rw [filterSet_isEmpty, filterSet_contains]
  cases filter.isEmpty || filter.contains k with
  | false => rfl
  | true =>
    show (match mapLookup (goEntries c) k with
      | some v => some v
      | none => mapLookup ([] : Entries) k) = mapLookup (goEntries c) k
    cases mapLookup (goEntries c) k <;> rfl

/-- C3: for an owner with a publish destination, the store-backed
publisher delegates to the underlying store exactly the entries of the
input details whose keys pass the configured filter, an empty filter
letting every key through; excluded keys are dropped silently, and a
successful store write yields published true with nil error. -/
theorem claim_C3_publish_filter
    (p : SecretStoreConnectionPublisher) (o : ConnectionSecretOwner) (c : GoMap)
    (hdest : o.publishConnectionDetailsTo.isSome = true) (hwf : wfGoMap c) :
    (p.PublishConnection o c).delegated = some (filterConnectionData p.filter c) ∧
    (∀ k, mapLookup (filterConnectionData p.filter c) k =
      if p.filter.isEmpty || p.filter.contains k then goLookup c k else none) ∧
    (p.publisher o (filterConnectionData p.filter c) = none →
      (p.PublishConnection o c).published = true ∧
      (p.PublishConnection o c).err = none) := by
  obtain ⟨d, hd⟩ := Option.isSome_iff_exists.mp hdest
  have hrun : p.PublishConnection o c =
      match p.publisher o (filterConnectionData p.filter c) with
      | some e => ⟨false, some (GoError.wrap errPublish e), some (filterConnectionData p.filter c)⟩
      | none => ⟨true, none, some (filterConnectionData p.filter c)⟩ := by
    show SecretStoreConnectionPublisher.PublishConnection p o c = _
    unfold SecretStoreConnectionPublisher.PublishConnection
    rw [hd]
  refine ⟨?_, fun k => mapLookup_filterConnectionData p.filter c hwf k, ?_⟩
  · rw [hrun]
    cases p.publisher o (filterConnectionData p.filter c) <;> rfl
  · intro hok
    rw [hrun, hok]
    exact ⟨rfl, rfl⟩

/-- A concrete input details mapping for the publisher example. -/
def exDetails : GoMap :=
  some [("host", "h"), ("port", "5432"), ("password", "p")]

/-- C3 witness: with the filter host, port the store receives exactly the
host and port entries and publication succeeds; with the empty filter all
three entries pass. -/
theorem claim_C3_witness :
    (SecretStoreConnectionPublisher.PublishConnection
      ⟨fun _ _ => none, ["host", "port"]⟩ exOwnerPub exDetails).delegated =
      some (filterConnectionData ["host", "port"] exDetails) ∧
    filterConnectionData ["host", "port"] exDetails =
      [("host", "h"), ("port", "5432")] ∧
    (SecretStoreConnectionPublisher.PublishConnection
      ⟨fun _ _ => none, ["host", "port"]⟩ exOwnerPub exDetails).published = true ∧
    filterConnectionData [] exDetails =
      [("host", "h"), ("port", "5432"), ("password", "p")] := by
  have h := claim_C3_publish_filter ⟨fun _ _ => none, ["host", "port"]⟩
    exOwnerPub exDetails rfl (by unfold wfGoMap; decide)
  exact ⟨h.1, by decide, (h.2.2 rfl).1, by decide⟩

theorem cdLoop_no_key_found (data : StorePayload) (ds : List ConnectionDetail)
    (h : ∀ d ∈ ds, ∀ s, d.fromConnectionSecretKey = some s → dataLookup data s = none) :
    ∀ conn : Entries,
      cdLoop data ds conn = Except.ok conn ∨
        ∃ e, cdLoop data ds conn = Except.error e := by
  induction ds with
  | nil => intro conn; exact Or.inl rfl
  | cons d ds ih =>
    intro conn
    have h2 : ∀ x ∈ ds, ∀ s, x.fromConnectionSecretKey = some s → dataLookup data s = none :=
      fun x hx => h x (List.mem_cons_of_mem _ hx)
    cases htp : connectionDetailType d with
    | fromConnectionSecretKey =>
      cases hk : d.fromConnectionSecretKey with
      | none =>
        refine Or.inr ⟨GoError.fmtConnDetailKey (connectionDetailType d), ?_⟩
        simp [cdLoop, htp, hk]
      | some sk =>
        have hdl : dataLookup data sk = none := h d (List.mem_cons_self ..) sk hk
        have hstep : cdLoop data (d :: ds) conn = cdLoop data ds conn := by
          simp [cdLoop, htp, hk, hdl]
        rw [hstep]
        exact ih h2 conn
    | fromFieldPath =>
      have hstep : cdLoop data (d :: ds) conn = cdLoop data ds conn := by
        simp [cdLoop, htp]
      rw [hstep]
      exact ih h2 conn
    | fromValue =>
      have hstep : cdLoop data (d :: ds) conn = cdLoop data ds conn := by
        simp [cdLoop, htp]
      rw [hstep]
      exact ih h2 conn
    | unknown =>
      have hstep : cdLoop data (d :: ds) conn = cdLoop data ds conn := by
        simp [cdLoop, htp]
      rw [hstep]
      exact ih h2 conn

theorem cdLoop_missing_key_ref (data : StorePayload) (ds : List ConnectionDetail)
    (hex : ∃ d ∈ ds, connectionDetailType d = ConnectionDetailType.fromConnectionSecretKey ∧
      d.fromConnectionSecretKey = none) :
    ∀ conn : Entries,
      cdLoop data ds conn =
        Except.error (GoError.fmtConnDetailKey
          ConnectionDetailType.fromConnectionSecretKey) := by
  induction ds with
  | nil =>
    obtain ⟨d, hd, _⟩ := hex
    exact absurd hd (List.not_mem_nil d)
  | cons d0 ds ih =>
    intro conn
    obtain ⟨d, hd, htp, hkey⟩ := hex
    rcases List.mem_cons.mp hd with rfl | hd2
    · simp [cdLoop, htp, hkey]
    · have hex2 : ∃ x ∈ ds, connectionDetailType x =
          ConnectionDetailType.fromConnectionSecretKey ∧
          x.fromConnectionSecretKey = none := ⟨d, hd2, htp, hkey⟩
      cases htp0 : connectionDetailType d0 with
      | fromConnectionSecretKey =>
        cases hk0 : d0.fromConnectionSecretKey with
        | none => simp [cdLoop, htp0, hk0]
        | some sk =>
          cases hdl : dataLookup data sk with
          | none =>
            have hstep : cdLoop data (d0 :: ds) conn = cdLoop data ds conn := by
              simp [cdLoop, htp0, hk0, hdl]
            rw [hstep]
            exact ih hex2 conn
          | some v =>
            have hstep : cdLoop data (d0 :: ds) conn =
                (if (match d0.name with | some n => n | none => sk) = ""
                  then cdLoop data ds conn
                  else cdLoop data ds
                    (mapInsert conn (match d0.name with | some n => n | none => sk) v)) := by
              simp [cdLoop, htp0, hk0, hdl]
            rw [hstep]
            split
            · exact ih hex2 conn
            · exact ih hex2 _
      | fromFieldPath =>
        have hstep : cdLoop data (d0 :: ds) conn = cdLoop data ds conn := by
          simp [cdLoop, htp0]
        rw [hstep]
        exact ih hex2 conn
      | fromValue =>
        have hstep : cdLoop data (d0 :: ds) conn = cdLoop data ds conn := by
          simp [cdLoop, htp0]
        rw [hstep]
        exact ih hex2 conn
      | unknown =>
        have hstep : cdLoop data (d0 :: ds) conn = cdLoop data ds conn := by
          simp [cdLoop, htp0]
        rw [hstep]
        exact ih hex2 conn

/-- C2: the store-backed fetcher maps the concrete one-declaration
template over the concrete payload to exactly the renamed single entry;
for every template it returns nil details whenever no referenced source
key resolves in the payload (in particular when the payload is absent),
and it never returns an empty non-nil mapping. -/
theorem fetch_run_ok (f : SecretStoreConnectionDetailsFetcher) (cd : Composed)
    (t : ComposedTemplate) (data : StorePayload)
    (h : f.fetcher cd = (data, none)) :
    f.FetchConnectionDetails cd t =
      match cdLoop data t.connectionDetails [] with
      | Except.error e => (none, some e)
      | Except.ok conn =>
        if conn.length = 0 then (none, none) else (some conn, none) := by
  show SecretStoreConnectionDetailsFetcher.FetchConnectionDetails f cd t = _
  unfold SecretStoreConnectionDetailsFetcher.FetchConnectionDetails
  rw [h]

theorem fetch_run_err (f : SecretStoreConnectionDetailsFetcher) (cd : Composed)
    (t : ComposedTemplate) (data : StorePayload) (e : GoError)
    (h : f.fetcher cd = (data, some e)) :
    f.FetchConnectionDetails cd t = (none, some (GoError.wrap errFetchSecret e)) := by
  show SecretStoreConnectionDetailsFetcher.FetchConnectionDetails f cd t = _
  unfold SecretStoreConnectionDetailsFetcher.FetchConnectionDetails
  rw [h]

theorem claim_C2_secret_store_fetch :
    SecretStoreConnectionDetailsFetcher.FetchConnectionDetails
      ⟨fun _ => (some [("user", some "alice"), ("pass", some "x")], none)⟩
      exOwner exTemplate = (some [("username", "alice")], none) ∧
    (∀ (data : StorePayload) (cd : Composed) (t : ComposedTemplate),
      (∀ d ∈ t.connectionDetails, ∀ s, d.fromConnectionSecretKey = some s →
        dataLookup data s = none) →
      (SecretStoreConnectionDetailsFetcher.FetchConnectionDetails
        ⟨fun _ => (data, none)⟩ cd t).1 = none) ∧
    (∀ (f : SecretStoreConnectionDetailsFetcher) (cd : Composed) (t : ComposedTemplate),
      (f.FetchConnectionDetails cd t).1 ≠ some []) := by
  refine ⟨by decide, ?_, ?_⟩
  · intro data cd t h
    rw [fetch_run_ok ⟨fun _ => (data, none)⟩ cd t data rfl]
    rcases cdLoop_no_key_found data t.connectionDetails h [] with hok | ⟨e, herr⟩
    · rw [hok]
      rfl
    · rw [herr]
  · intro f cd t
    rcases hfc : f.fetcher cd with ⟨data, err⟩
    cases err with
    | some e =>
      rw [fetch_run_err f cd t data e hfc]
      intro h
      exact Option.noConfusion h
    | none =>
      rw [fetch_run_ok f cd t data hfc]
      cases cdLoop data t.connectionDetails [] with
      | error e =>
        intro h
        exact Option.noConfusion h
      | ok conn =>
        show (if conn.length = 0 then ((none : GoMap), (none : Option GoError))
          else (some conn, none)).1 ≠ some []
        by_cases hc0 : conn.length = 0
        · rw [if_pos hc0]
          intro h
          exact Option.noConfusion h
        · rw [if_neg hc0]
          intro h
          have hc : conn = [] := Option.some.inj h
          exact hc0 (by rw [hc]; rfl)

/-- C2 witness: with the nil payload and the concrete template the fetch
yields nil details, through an application of the general statement. -/
theorem claim_C2_witness :
    (SecretStoreConnectionDetailsFetcher.FetchConnectionDetails
      ⟨fun _ => (none, none)⟩ exOwner exTemplate).1 = none :=
  claim_C2_secret_store_fetch.2.1 none exOwner exTemplate
    (fun _ _ _ _ => rfl)

/-- C9: when the raw store read succeeds and the template holds a
from-secret-key declaration without a source key reference, the fetch
fails with nil details and the missing-key-reference error carrying the
declaration's connection-detail type. -/
theorem claim_C9_missing_key_reference
    (f : SecretStoreConnectionDetailsFetcher) (cd : Composed)
    (t : ComposedTemplate) (d : ConnectionDetail)
    (hread : (f.fetcher cd).2 = none)
    (hmem : d ∈ t.connectionDetails)
    (htp : connectionDetailType d = ConnectionDetailType.fromConnectionSecretKey)
    (hkey : d.fromConnectionSecretKey = none) :
    f.FetchConnectionDetails cd t =
      (none, some (GoError.fmtConnDetailKey
        ConnectionDetailType.fromConnectionSecretKey)) := by
  rcases hfc : f.fetcher cd with ⟨data, err⟩
  have herr : err = none := by
    have := hread
    rw [hfc] at this
    exact this
  subst herr
  rw [fetch_run_ok f cd t data hfc,
    cdLoop_missing_key_ref data t.connectionDetails ⟨d, hmem, htp, hkey⟩ []]

/-- C9 witness: a concrete template whose only declaration lacks its
source key reference. -/
theorem claim_C9_witness :
    SecretStoreConnectionDetailsFetcher.FetchConnectionDetails
      ⟨fun _ => (some [("user", some "alice")], none)⟩ exOwner
      ⟨[⟨ConnectionDetailType.fromConnectionSecretKey, none, none⟩]⟩ =
      (none, some (GoError.fmtConnDetailKey
        ConnectionDetailType.fromConnectionSecretKey)) :=
  claim_C9_missing_key_reference
    ⟨fun _ => (some [("user", some "alice")], none)⟩ exOwner
    ⟨[⟨ConnectionDetailType.fromConnectionSecretKey, none, none⟩]⟩
    ⟨ConnectionDetailType.fromConnectionSecretKey, none, none⟩
    rfl (List.mem_singleton.mpr rfl) rfl rfl

theorem configure_assign (cp : Composite) (comp : Composition)
    (updateErr : Option GoError) (sc : String)
    (hapi : comp.spec.compositeTypeRef.apiVersion = cp.apiVersion)
    (hkind : comp.spec.compositeTypeRef.kind = cp.kind)
    (hdest : cp.publishConnectionDetailsTo = none)
    (hsc : comp.spec.publishConnectionDetailsWithStoreConfig = some sc) :
    ConnectionDetailsConfigurator.Configure cp comp updateErr =
      ⟨⟨cp.uid, cp.apiVersion, cp.kind, some ⟨cp.uid, some ⟨sc⟩⟩⟩,
        wrapErr errUpdateComposite updateErr, true⟩ := by
  have hcond : ¬(comp.spec.compositeTypeRef.apiVersion ≠ cp.apiVersion ∨
      comp.spec.compositeTypeRef.kind ≠ cp.kind) := by
    push_neg
    exact ⟨hapi, hkind⟩
  unfold ConnectionDetailsConfigurator.Configure
  rw [if_neg hcond, hdest, hsc]

theorem configure_noop_destination_set (cp : Composite) (comp : Composition)
    (updateErr : Option GoError)
    (hapi : comp.spec.compositeTypeRef.apiVersion = cp.apiVersion)
    (hkind : comp.spec.compositeTypeRef.kind = cp.kind)
    (hdest : cp.publishConnectionDetailsTo.isSome = true) :
    ConnectionDetailsConfigurator.Configure cp comp updateErr = ⟨cp, none, false⟩ := by
  have hcond : ¬(comp.spec.compositeTypeRef.apiVersion ≠ cp.apiVersion ∨
      comp.spec.compositeTypeRef.kind ≠ cp.kind) := by
    push_neg
    exact ⟨hapi, hkind⟩
  obtain ⟨d, hd⟩ := Option.isSome_iff_exists.mp hdest
  unfold ConnectionDetailsConfigurator.Configure
  rw [if_neg hcond, hd]

/-- C7: for a matching composition declaring a default store config and a
composite resource without a destination, Configure assigns the
destination named by the resource's UID referencing the declared store
config and persists it; a second call on the resulting state is a no-op
returning success, and no call ever changes a resource whose destination
is already set. -/
theorem claim_C7_configure_sets_destination
    (cp : Composite) (comp : Composition)
    (updateErr updateErr2 : Option GoError) (sc : String)
    (hapi : comp.spec.compositeTypeRef.apiVersion = cp.apiVersion)
    (hkind : comp.spec.compositeTypeRef.kind = cp.kind)
    (hdest : cp.publishConnectionDetailsTo = none)
    (hsc : comp.spec.publishConnectionDetailsWithStoreConfig = some sc) :
    (ConnectionDetailsConfigurator.Configure cp comp
      updateErr).cp.publishConnectionDetailsTo = some ⟨cp.uid, some ⟨sc⟩⟩ ∧
    (ConnectionDetailsConfigurator.Configure cp comp updateErr).updated = true ∧
    (ConnectionDetailsConfigurator.Configure cp comp updateErr).err =
      wrapErr errUpdateComposite updateErr ∧
    ConnectionDetailsConfigurator.Configure
      (ConnectionDetailsConfigurator.Configure cp comp updateErr).cp comp updateErr2 =
      ⟨(ConnectionDetailsConfigurator.Configure cp comp updateErr).cp, none, false⟩ ∧
    (∀ (cp2 : Composite) (comp2 : Composition) (u2 : Option GoError),
      cp2.publishConnectionDetailsTo.isSome = true →
      (ConnectionDetailsConfigurator.Configure cp2 comp2 u2).cp = cp2) := by
  have h1 := configure_assign cp comp updateErr sc hapi hkind hdest hsc
  refine ⟨by rw [h1], by rw [h1], by rw [h1], ?_, ?_⟩
  · rw [h1]
    exact configure_noop_destination_set _ comp updateErr2 hapi hkind rfl
  · intro cp2 comp2 u2 h2
    obtain ⟨d, hd⟩ := Option.isSome_iff_exists.mp h2
    show (ConnectionDetailsConfigurator.Configure cp2 comp2 u2).cp = cp2
    unfold ConnectionDetailsConfigurator.Configure
    split
    · rfl
    · rw [hd]

/-- A concrete composition matching exOwner and declaring a default store
config. -/
def exComp : Composition := ⟨⟨⟨"example.org/v1", "XR"⟩, some "default"⟩⟩

/-- A concrete composition whose composite type reference does not match
exOwner. -/
def exCompBad : Composition := ⟨⟨⟨"example.org/v2", "XR"⟩, some "default"⟩⟩

/-- C7 witness: configuring the concrete destination-less owner against
the matching composition assigns the UID-named destination referencing
the declared store config, updates once, and is a no-op the second time. -/
theorem claim_C7_witness :
    (ConnectionDetailsConfigurator.Configure exOwner exComp
      none).cp.publishConnectionDetailsTo = some ⟨"uid-1", some ⟨"default"⟩⟩ ∧
    (ConnectionDetailsConfigurator.Configure exOwner exComp none).updated = true ∧
    (ConnectionDetailsConfigurator.Configure exOwner exComp none).err = none ∧
    ConnectionDetailsConfigurator.Configure
      (ConnectionDetailsConfigurator.Configure exOwner exComp none).cp exComp none =
      ⟨(ConnectionDetailsConfigurator.Configure exOwner exComp none).cp,
        none, false⟩ := by
  have h := claim_C7_configure_sets_destination exOwner exComp none none "default"
    rfl rfl rfl rfl
  exact ⟨h.1, h.2.1, h.2.2.1, h.2.2.2.1⟩

/-- C8: a composition whose composite type reference differs from the
resource's apiVersion/kind identity is rejected with the
composition-mismatch error, the resource is left unchanged, and the
object client's update is never invoked. -/
theorem claim_C8_configure_mismatch
    (cp : Composite) (comp : Composition) (updateErr : Option GoError)
    (h : comp.spec.compositeTypeRef.apiVersion ≠ cp.apiVersion ∨
      comp.spec.compositeTypeRef.kind ≠ cp.kind) :
    ConnectionDetailsConfigurator.Configure cp comp updateErr =
      ⟨cp, some (GoError.new errCompositionNotCompatible), false⟩ := by
  unfold ConnectionDetailsConfigurator.Configure
  rw [if_pos h]

/-- C8 witness: the concrete mismatching composition is rejected and the
owner left untouched. -/
theorem claim_C8_witness :
    ConnectionDetailsConfigurator.Configure exOwner exCompBad none =
      ⟨exOwner, some (GoError.new errCompositionNotCompatible), false⟩ :=
  claim_C8_configure_mismatch exOwner exCompBad none (Or.inl (by decide))

end Crossplane.Conn
